import Mathlib

/-!
Verification of the block layout calculator, packing, workspace and kernel
dispatch contracts of `onnxruntime/core/mlas/lib/sqnbitgemm.h` (SQNBitGemm:
float A times n-bit block-quantized B).  Machine `size_t` arithmetic is
modelled by `Nat` (truncating division included); float arithmetic in the
spec-modelled kernel contracts is modelled by exact rationals.
-/

namespace SQNBitGemm

/-- Size in bytes of one quantized block of `BlkLen` values at `BlkBitWidth`
bits per value, from `MlasQNBitBlkDataSizeInBytes` in `sqnbitgemm.h`:
`return BlkLen * BlkBitWidth / 8;` with truncating `size_t` division. -/
def MlasQNBitBlkDataSizeInBytes (BlkBitWidth BlkLen : Nat) : Nat :=
  BlkLen * BlkBitWidth / 8

/-- Modelled from the spec: `MlasDivRoundup` is declared in `mlasi.h`, which is
not among the sources here; the spec describes the zero point sizing as
ceiling division (two zero points per byte, rounded up). -/
def MlasDivRoundup (Numerator Denominator : Nat) : Nat :=
  (Numerator + Denominator - 1) / Denominator

/-- Size in bytes of the zero point array for `BlkCount` blocks, from
`MlasQNBitZeroPointsForBlksSizeInBytes` in `sqnbitgemm.h`; the template
parameter `BlkBitWidth` becomes an ordinary argument and `if constexpr`
an ordinary `if`. -/
def MlasQNBitZeroPointsForBlksSizeInBytes (BlkBitWidth BlkCount : Nat) : Nat :=
  if BlkBitWidth ≤ 4 then MlasDivRoundup BlkCount 2 else BlkCount

/-- Required element count of the dequantize-for-Sgemm destination buffer,
from the doc of `Q4BitBlkDequantBForSgemm_CompFp32_Fn` in `sqnbitgemm.h`:
`(CountN + 16 - 1) / 16 * 16 * (CountK + BlkLen - 1) / BlkLen * BlkLen`,
read as the product of the two round-ups `roundUp(CountN, 16)` and
`roundUp(CountK, BlkLen)`. -/
def fpDataSizeFloats (CountN CountK BlkLen : Nat) : Nat :=
  (CountN + 16 - 1) / 16 * 16 * ((CountK + BlkLen - 1) / BlkLen * BlkLen)

/-- The same documented expression grouped strictly left to right, as C
`size_t` arithmetic parses it (division and multiplication associate left). -/
def fpDataSizeFloatsLeftAssoc (CountN CountK BlkLen : Nat) : Nat :=
  (CountN + 16 - 1) / 16 * 16 * (CountK + BlkLen - 1) / BlkLen * BlkLen

/-- Meaningful prefix of the destination buffer, from the same doc:
only the first `(CountN + 16 - 1) / 16 * 16 * CountK` elements are useful. -/
def fpDataMeaningfulFloats (CountN CountK : Nat) : Nat :=
  (CountN + 16 - 1) / 16 * 16 * CountK

/-- Modelled from the spec: `MLAS_SQNBIT_GEMM_COMPUTE_TYPE` is declared in
`mlas_qnbit.h`, which is not among the sources here; the spec names the two
compute paths CompFp32 (float activations) and CompInt8 (int8-quantized
activations). -/
inductive MLAS_SQNBIT_GEMM_COMPUTE_TYPE where
  | CompFp32
  | CompInt8
deriving DecidableEq

/-- Byte memory, modelling a `std::byte` buffer as offset to byte value. -/
abbrev ByteMem := Nat → Nat

/-- Block-quantized activation row: one scale and one int8 value list per
block, modelling the binary layout behind the `QuantA` pointer. -/
abbrev QuantAMem := List (ℚ × List ℤ)

/-- Mirror of the `SQ4BitGemmPackQuantBDataSize_Fn` pointer type:
`(N, K, BlkLen, ComputeType)` to a byte count. -/
abbrev SQ4BitGemmPackQuantBDataSize_Fn :=
  Nat → Nat → Nat → MLAS_SQNBIT_GEMM_COMPUTE_TYPE → Nat

/-- Mirror of the `SQ4BitGemmPackQuantBData_Fn` pointer type:
`(N, K, BlkLen, ComputeType, source bytes, destination bytes)` to the
destination bytes after packing; the thread pool argument is dropped since
parallel dispatch is external to this core. -/
abbrev SQ4BitGemmPackQuantBData_Fn :=
  Nat → Nat → Nat → MLAS_SQNBIT_GEMM_COMPUTE_TYPE → ByteMem → ByteMem → ByteMem

/-- Mirror of the `SQ4BitGemmPerGemmWorkspaceSize_Fn` pointer type:
`(M, N, K, BlkLen, ComputeType)` to a byte count. -/
abbrev SQ4BitGemmPerGemmWorkspaceSize_Fn :=
  Nat → Nat → Nat → Nat → MLAS_SQNBIT_GEMM_COMPUTE_TYPE → Nat

/-- Mirror of the `SQ4BitGemmPerGemmWorkspaceAlignment_Fn` pointer type:
`(BlkLen, ComputeType)` to a byte alignment. -/
abbrev SQ4BitGemmPerGemmWorkspaceAlignment_Fn :=
  Nat → MLAS_SQNBIT_GEMM_COMPUTE_TYPE → Nat

/-- Mirror of the `SQ4BitGemmM1Kernel_CompFp32_Fn` pointer type:
`(BlkLen, A, QuantBData, QuantBScale, QuantBZeroPoint optional, CountN,
CountK, BlockStrideQuantB, Bias optional)` to the written row of C.  Floats
are modelled by rationals; B data and zero points are indexed by column and
then row or block index. -/
abbrev SQ4BitGemmM1Kernel_CompFp32_Fn :=
  Nat → (Nat → ℚ) → (Nat → Nat → ℤ) → (Nat → Nat → ℚ) →
    Option (Nat → Nat → ℤ) → Nat → Nat → Nat → Option (Nat → ℚ) → List ℚ

/-- Mirror of the `Q4BitBlkDequantBForSgemm_CompFp32_Fn` pointer type:
`(BlkLen, QuantBData, QuantBScale, QuantBZeroPoint optional, CountN, CountK,
BlockStrideQuantB)` to the dequantized float output. -/
abbrev Q4BitBlkDequantBForSgemm_CompFp32_Fn :=
  Nat → (Nat → Nat → ℤ) → (Nat → Nat → ℚ) → Option (Nat → Nat → ℤ) →
    Nat → Nat → Nat → List ℚ

/-- Mirror of the `SQ4BitGemmKernel_CompInt8_Fn` pointer type:
`(BlkLen, QuantA, QuantBData, QuantBScale, QuantBZeroPoint optional, CountM,
CountN, CountK, BlockCountK, ldc, Bias optional)` to the number of rows of A
and C that were processed. -/
abbrev SQ4BitGemmKernel_CompInt8_Fn :=
  Nat → QuantAMem → (Nat → Nat → ℤ) → (Nat → Nat → ℚ) →
    Option (Nat → Nat → ℤ) → Nat → Nat → Nat → Nat → Nat →
    Option (Nat → ℚ) → Nat

/-- Mirror of the `QuantizeARow_CompInt8_Fn` pointer type:
`(BlkLen, A, CountK)` to the block-quantized int8 row. -/
abbrev QuantizeARow_CompInt8_Fn :=
  Nat → (Nat → ℚ) → Nat → QuantAMem

/-- The kernel dispatch structure `MLAS_SQNBIT_GEMM_DISPATCH` from
`sqnbitgemm.h`: eight operation slots, each a function pointer defaulted to
`nullptr`, modelled as `Option` fields defaulted to `none`. -/
structure MLAS_SQNBIT_GEMM_DISPATCH where
  SQ4BitGemmPackQuantBDataSize : Option SQ4BitGemmPackQuantBDataSize_Fn := none
  SQ4BitGemmPackQuantBData : Option SQ4BitGemmPackQuantBData_Fn := none
  SQ4BitGemmPerGemmWorkspaceSize : Option SQ4BitGemmPerGemmWorkspaceSize_Fn := none
  SQ4BitGemmPerGemmWorkspaceAlignment : Option SQ4BitGemmPerGemmWorkspaceAlignment_Fn := none
  SQ4BitGemmM1Kernel_CompFp32 : Option SQ4BitGemmM1Kernel_CompFp32_Fn := none
  Q4BitBlkDequantBForSgemm_CompFp32 : Option Q4BitBlkDequantBForSgemm_CompFp32_Fn := none
  SQ4BitGemmKernel_CompInt8 : Option SQ4BitGemmKernel_CompInt8_Fn := none
  QuantizeARow_CompInt8 : Option QuantizeARow_CompInt8_Fn := none

/-- Modelled from the spec: the bodies of the `SQ4BitGemmKernel_CompInt8`
implementations are not among the sources here (only the pointer type is);
per the spec a call returns the number of rows actually processed, at most
`CountM`, and callers loop, advancing by the returned count, until all
`CountM` rows are consumed.  `step m` is the processed-row count the kernel
returns when `m` rows remain; `callerLoopCounts step fuel m` collects the
counts the caller loop sees.  The fuel argument makes the loop structurally
terminating and is instantiated with `CountM`, which suffices whenever every
call on a nonempty remainder makes progress. -/
def callerLoopCounts (step : Nat → Nat) : Nat → Nat → List Nat
  | 0, _ => []
  | _ + 1, 0 => []
  | fuel + 1, m + 1 =>
      step (m + 1) :: callerLoopCounts step fuel (m + 1 - step (m + 1))

/-- Modelled from the spec: `SQ4BitGemmPackQuantBDataSize` bodies are not
among the sources here; the spec only requires a pure byte count in
`(N, K, BlkLen, ComputeType)`.  We model the baseline layout size: `N`
columns of `ceil(K / BlkLen)` blocks of `MlasQNBitBlkDataSizeInBytes 4
BlkLen` bytes each. -/
def SQ4BitGemmPackQuantBDataSize (N K BlkLen : Nat)
    (_ct : MLAS_SQNBIT_GEMM_COMPUTE_TYPE) : Nat :=
  N * MlasDivRoundup K BlkLen * MlasQNBitBlkDataSizeInBytes 4 BlkLen

/-- Modelled from the spec: the byte the packing writes at destination
offset `i`.  The exact physical interleave is kernel specific and
intentionally left unspecified by the spec, so the written byte is kept
abstract as a function of the source bytes only, never of the previous
destination contents. -/
def packedByteAt (_N _K _BlkLen : Nat) (src : ByteMem) (i : Nat) : Nat :=
  src i

/-- Modelled from the spec: `SQ4BitGemmPackQuantBData` bodies are not among
the sources here; per the spec packing rewrites the source layout into the
destination, fully overwriting the destination range and never touching a
byte at or beyond the size given by `SQ4BitGemmPackQuantBDataSize`. -/
def SQ4BitGemmPackQuantBData (N K BlkLen : Nat)
    (ct : MLAS_SQNBIT_GEMM_COMPUTE_TYPE) (src dest : ByteMem) : ByteMem :=
  fun i =>
    if i < SQ4BitGemmPackQuantBDataSize N K BlkLen ct then
      packedByteAt N K BlkLen src i
    else dest i

/-- Largest absolute value within block `i` of the activation row `A` of
length `CountK`: positions `i * BlkLen + j` for `j < BlkLen` that fall below
`CountK`. -/
def aBlockMaxAbs (BlkLen CountK : Nat) (A : Nat → ℚ) (i : Nat) : ℚ :=
  (((List.range BlkLen).filter (fun j => i * BlkLen + j < CountK)).map
    (fun j => |A (i * BlkLen + j)|)).foldr max 0

/-- Modelled from the spec: the per-block scale of the quantized activation
row, the quantization step mapping the block's absolute maximum to the top
of the signed int8 range. -/
def aBlockScale (BlkLen CountK : Nat) (A : Nat → ℚ) (i : Nat) : ℚ :=
  aBlockMaxAbs BlkLen CountK A i / 127

/-- Modelled from the spec: the int8 value quantizing element `k` of the
activation row, rounding the element over its block scale to the nearest
integer. -/
def aQuant (BlkLen CountK : Nat) (A : Nat → ℚ) (k : Nat) : ℤ :=
  round (A k / aBlockScale BlkLen CountK A (k / BlkLen))

/-- Modelled from the spec: the bodies of the `QuantizeARow_CompInt8`
implementations are not among the sources here (only the pointer type is);
per the spec the function converts one dense float row into block-quantized
int8 form, one scale and `BlkLen`-many (fewer in a final partial block)
int8 values per block, with `ceil(CountK / BlkLen)` blocks.  Float
arithmetic is modelled by exact rationals. -/
def QuantizeARow_CompInt8 (BlkLen : Nat) (A : Nat → ℚ) (CountK : Nat) :
    QuantAMem :=
  (List.range (MlasDivRoundup CountK BlkLen)).map (fun i =>
    (aBlockScale BlkLen CountK A i,
     ((List.range BlkLen).filter (fun j => i * BlkLen + j < CountK)).map
       (fun j => aQuant BlkLen CountK A (i * BlkLen + j))))

/-- Modelled from the spec: dequantized element of the 4-bit block-quantized
column-major B at column `n`, row `k`: the scale of row block `k / BlkLen`
times the quantized value minus that block's zero point; an absent zero
point means the neutral midpoint 8 of the unsigned 4-bit range. -/
def dequantB (BlkLen : Nat) (QuantBData : Nat → Nat → ℤ)
    (QuantBScale : Nat → Nat → ℚ) (QuantBZeroPoint : Option (Nat → Nat → ℤ))
    (n k : Nat) : ℚ :=
  QuantBScale n (k / BlkLen) *
    ((QuantBData n k : ℚ) -
      ((QuantBZeroPoint.getD (fun _ _ => 8)) n (k / BlkLen) : ℚ))

/-- Modelled from the spec: the bodies of the `SQ4BitGemmM1Kernel_CompFp32`
implementations are not among the sources here (only the pointer type is);
per the spec the single-row kernel computes
`C[1, CountN] = A[1, CountK] * dequant(B) + Bias`.  It walks the
`BlockStrideQuantB` blocks of each of the `CountN` columns, accumulating the
partial dot product of A with the block's dequantized values — positions at
or past `CountK` in a final partial block contribute nothing — and adds the
bias, 0 when absent.  Float arithmetic is modelled by exact rationals and
the written row of C by the returned list. -/
def SQ4BitGemmM1Kernel_CompFp32 (BlkLen : Nat) (A : Nat → ℚ)
    (QuantBData : Nat → Nat → ℤ) (QuantBScale : Nat → Nat → ℚ)
    (QuantBZeroPoint : Option (Nat → Nat → ℤ))
    (CountN CountK BlockStrideQuantB : Nat) (Bias : Option (Nat → ℚ)) :
    List ℚ :=
  (List.range CountN).map fun n =>
    (∑ i ∈ Finset.range BlockStrideQuantB, ∑ j ∈ Finset.range BlkLen,
      if i * BlkLen + j < CountK then
        A (i * BlkLen + j) * (QuantBScale n i *
          ((QuantBData n (i * BlkLen + j) : ℚ) -
            ((QuantBZeroPoint.getD (fun _ _ => 8)) n i : ℚ)))
      else 0) + (Bias.getD (fun _ => 0)) n

end SQNBitGemm

namespace SQNBitGemm

/-- Claim C1: for every `BlkBitWidth` in 2, 4, 8 and every `BlkLen` in
16, 32, 64, 128 the product `BlkLen * BlkBitWidth` is divisible by 8 (the
stated precondition holds) and `MlasQNBitBlkDataSizeInBytes` returns exactly
`BlkLen * BlkBitWidth / 8`, an exact quotient: multiplying back by 8
recovers the product. -/
theorem blkDataSize_exact (w l : Nat) (hw : w = 2 ∨ w = 4 ∨ w = 8)
    (hl : l = 16 ∨ l = 32 ∨ l = 64 ∨ l = 128) :
    8 ∣ l * w ∧ MlasQNBitBlkDataSizeInBytes w l = l * w / 8 ∧
      MlasQNBitBlkDataSizeInBytes w l * 8 = l * w := by
  rcases hw with rfl | rfl | rfl <;> rcases hl with rfl | rfl | rfl | rfl <;>
    refine ⟨by decide, rfl, by decide⟩

/-- Witness for C1 at `BlkBitWidth = 4`, `BlkLen = 32`. -/
theorem blkDataSize_exact_witness :
    8 ∣ 32 * 4 ∧ MlasQNBitBlkDataSizeInBytes 4 32 = 32 * 4 / 8 ∧
      MlasQNBitBlkDataSizeInBytes 4 32 * 8 = 32 * 4 :=
  blkDataSize_exact 4 32 (Or.inr (Or.inl rfl)) (Or.inr (Or.inl rfl))

/-- Claim C2: for every `BlkBitWidth` and `BlkCount`,
`MlasQNBitZeroPointsForBlksSizeInBytes` returns the ceiling of
`BlkCount / 2` when `BlkBitWidth ≤ 4` and returns `BlkCount` otherwise. -/
theorem zeroPointsSize_spec (w c : Nat) :
    (w ≤ 4 → MlasQNBitZeroPointsForBlksSizeInBytes w c = c ⌈/⌉ 2) ∧
      (4 < w → MlasQNBitZeroPointsForBlksSizeInBytes w c = c) := by
  constructor
  · intro hw
    rw [Nat.ceilDiv_eq_add_pred_div]
    simp [MlasQNBitZeroPointsForBlksSizeInBytes, MlasDivRoundup, hw]
  · intro hw
    simp [MlasQNBitZeroPointsForBlksSizeInBytes, MlasDivRoundup, Nat.not_le.mpr hw]

/-- Witness for C2 at `BlkBitWidth = 4, BlkCount = 5` and at
`BlkBitWidth = 8, BlkCount = 5`. -/
theorem zeroPointsSize_spec_witness :
    MlasQNBitZeroPointsForBlksSizeInBytes 4 5 = 5 ⌈/⌉ 2 ∧
      MlasQNBitZeroPointsForBlksSizeInBytes 8 5 = 5 :=
  ⟨(zeroPointsSize_spec 4 5).1 (by decide), (zeroPointsSize_spec 8 5).2 (by decide)⟩

/-- Claim C9: when `BlkLen * BlkBitWidth` is not divisible by 8,
`MlasQNBitBlkDataSizeInBytes` neither fails nor rounds up: it returns the
truncated quotient, which strictly understates the bit size
(8 times the result is strictly below `BlkLen * BlkBitWidth`). -/
theorem blkDataSize_truncates (w l : Nat) (h : ¬ 8 ∣ l * w) :
    MlasQNBitBlkDataSizeInBytes w l = l * w / 8 ∧
      8 * MlasQNBitBlkDataSizeInBytes w l < l * w := by
  refine ⟨rfl, ?_⟩
  have hle : 8 * (l * w / 8) ≤ l * w := Nat.mul_div_le (l * w) 8 |>.trans_eq rfl
  rcases Nat.lt_or_ge (8 * (l * w / 8)) (l * w) with hlt | hge
  · exact hlt
  · exact absurd ⟨l * w / 8, le_antisymm hle hge |>.symm⟩ h

/-- Witness for C9 at `BlkBitWidth = 3`, `BlkLen = 20`:
60 bits truncate to 7 bytes, understating the 60-bit block. -/
theorem blkDataSize_truncates_witness :
    MlasQNBitBlkDataSizeInBytes 3 20 = 20 * 3 / 8 ∧
      8 * MlasQNBitBlkDataSizeInBytes 3 20 < 20 * 3 :=
  blkDataSize_truncates 3 20 (by decide)

/-- Claim C10: for every `BlkBitWidth`, `MlasQNBitZeroPointsForBlksSizeInBytes`
is at most `BlkCount` (never more than one byte per block), is monotonically
nondecreasing in `BlkCount`, and is zero exactly when `BlkCount` is zero. -/
theorem zeroPointsSize_bounds (w c d : Nat) (hcd : c ≤ d) :
    MlasQNBitZeroPointsForBlksSizeInBytes w c ≤ c ∧
      MlasQNBitZeroPointsForBlksSizeInBytes w c ≤
        MlasQNBitZeroPointsForBlksSizeInBytes w d ∧
      (MlasQNBitZeroPointsForBlksSizeInBytes w c = 0 ↔ c = 0) := by
  unfold MlasQNBitZeroPointsForBlksSizeInBytes MlasDivRoundup
  split <;> refine ⟨?_, ?_, ?_⟩ <;> omega

/-- Witness for C10 at `BlkBitWidth = 4`, `BlkCount` from 5 to 9. -/
theorem zeroPointsSize_bounds_witness :
    MlasQNBitZeroPointsForBlksSizeInBytes 4 5 ≤ 5 ∧
      MlasQNBitZeroPointsForBlksSizeInBytes 4 5 ≤
        MlasQNBitZeroPointsForBlksSizeInBytes 4 9 ∧
      (MlasQNBitZeroPointsForBlksSizeInBytes 4 5 = 0 ↔ 5 = 0) :=
  zeroPointsSize_bounds 4 5 9 (by decide)

/-- Rounding `K` up to a multiple of `B` never falls below `K`. -/
theorem le_divRoundup_mul (K B : Nat) (hB : 1 ≤ B) : K ≤ MlasDivRoundup K B * B := by
  have h := le_smul_ceilDiv (a := B) (b := K) (by omega)
  rw [Nat.ceilDiv_eq_add_pred_div, smul_eq_mul] at h
  unfold MlasDivRoundup
  rw [Nat.mul_comm]
  exact h

/-- Claim C6: for every `CountN`, `CountK` and `BlkLen ≥ 1`, the documented
destination size of the dequantize-for-fallback buffer is at least its
meaningful prefix `roundUp(CountN, 16) * CountK`, under both the round-up
product reading and the strict left-to-right C reading of the documented
expression. -/
theorem dequantB_dest_size_covers (CountN CountK BlkLen : Nat) (hB : 1 ≤ BlkLen) :
    fpDataMeaningfulFloats CountN CountK ≤ fpDataSizeFloats CountN CountK BlkLen ∧
      fpDataMeaningfulFloats CountN CountK ≤
        fpDataSizeFloatsLeftAssoc CountN CountK BlkLen := by
  unfold fpDataMeaningfulFloats fpDataSizeFloats fpDataSizeFloatsLeftAssoc
  constructor
  · exact Nat.mul_le_mul_left _ (le_divRoundup_mul CountK BlkLen hB)
  · set X := (CountN + 16 - 1) / 16 * 16 with hXdef
    rcases Nat.eq_zero_or_pos X with hX0 | hX1
    · simp [hX0]
    · have hKB : CountK + BlkLen - 1 = CountK + (BlkLen - 1) := by omega
      rw [hKB, Nat.mul_add]
      have h1 := Nat.div_add_mod (X * CountK + X * (BlkLen - 1)) BlkLen
      have h2 : (X * CountK + X * (BlkLen - 1)) % BlkLen < BlkLen :=
        Nat.mod_lt _ (by omega)
      have h3 : BlkLen - 1 ≤ X * (BlkLen - 1) := Nat.le_mul_of_pos_left _ hX1
      rw [Nat.mul_comm ((X * CountK + X * (BlkLen - 1)) / BlkLen) BlkLen]
      set a := X * CountK
      set b := X * (BlkLen - 1)
      set r := (a + b) % BlkLen
      set t := BlkLen * ((a + b) / BlkLen)
      omega

/-- Witness for C6 at `CountN = 7`, `CountK = 40`, `BlkLen = 32`. -/
theorem dequantB_dest_size_covers_witness :
    fpDataMeaningfulFloats 7 40 ≤ fpDataSizeFloats 7 40 32 ∧
      fpDataMeaningfulFloats 7 40 ≤ fpDataSizeFloatsLeftAssoc 7 40 32 :=
  dequantB_dest_size_covers 7 40 32 (by decide)

/-- Claim C5: in `MLAS_SQNBIT_GEMM_DISPATCH`, a default-constructed dispatch
table has every one of its eight slots unbound (`none`, the model of
`nullptr`), and the slots are independent: every combination of bound and
unbound slots is realized by some table value, so unavailability is carried
by the slot itself being absent rather than by a failing invocation. -/
theorem dispatch_default_all_unbound :
    (({} : MLAS_SQNBIT_GEMM_DISPATCH).SQ4BitGemmPackQuantBDataSize = none ∧
      ({} : MLAS_SQNBIT_GEMM_DISPATCH).SQ4BitGemmPackQuantBData = none ∧
      ({} : MLAS_SQNBIT_GEMM_DISPATCH).SQ4BitGemmPerGemmWorkspaceSize = none ∧
      ({} : MLAS_SQNBIT_GEMM_DISPATCH).SQ4BitGemmPerGemmWorkspaceAlignment = none ∧
      ({} : MLAS_SQNBIT_GEMM_DISPATCH).SQ4BitGemmM1Kernel_CompFp32 = none ∧
      ({} : MLAS_SQNBIT_GEMM_DISPATCH).Q4BitBlkDequantBForSgemm_CompFp32 = none ∧
      ({} : MLAS_SQNBIT_GEMM_DISPATCH).SQ4BitGemmKernel_CompInt8 = none ∧
      ({} : MLAS_SQNBIT_GEMM_DISPATCH).QuantizeARow_CompInt8 = none) ∧
    ∀ (o1 : Option SQ4BitGemmPackQuantBDataSize_Fn)
      (o2 : Option SQ4BitGemmPackQuantBData_Fn)
      (o3 : Option SQ4BitGemmPerGemmWorkspaceSize_Fn)
      (o4 : Option SQ4BitGemmPerGemmWorkspaceAlignment_Fn)
      (o5 : Option SQ4BitGemmM1Kernel_CompFp32_Fn)
      (o6 : Option Q4BitBlkDequantBForSgemm_CompFp32_Fn)
      (o7 : Option SQ4BitGemmKernel_CompInt8_Fn)
      (o8 : Option QuantizeARow_CompInt8_Fn),
      ∃ d : MLAS_SQNBIT_GEMM_DISPATCH,
        d.SQ4BitGemmPackQuantBDataSize = o1 ∧
        d.SQ4BitGemmPackQuantBData = o2 ∧
        d.SQ4BitGemmPerGemmWorkspaceSize = o3 ∧
        d.SQ4BitGemmPerGemmWorkspaceAlignment = o4 ∧
        d.SQ4BitGemmM1Kernel_CompFp32 = o5 ∧
        d.Q4BitBlkDequantBForSgemm_CompFp32 = o6 ∧
        d.SQ4BitGemmKernel_CompInt8 = o7 ∧
        d.QuantizeARow_CompInt8 = o8 :=
  ⟨⟨rfl, rfl, rfl, rfl, rfl, rfl, rfl, rfl⟩,
    fun o1 o2 o3 o4 o5 o6 o7 o8 =>
      ⟨⟨o1, o2, o3, o4, o5, o6, o7, o8⟩,
        rfl, rfl, rfl, rfl, rfl, rfl, rfl, rfl⟩⟩

/-- Witness for C5: one slot bound, the other seven unbound, is a realizable
table value. -/
theorem dispatch_default_all_unbound_witness :
    ∃ d : MLAS_SQNBIT_GEMM_DISPATCH,
      d.SQ4BitGemmPackQuantBDataSize = some (fun _ _ _ _ => 0) ∧
      d.SQ4BitGemmPackQuantBData = none ∧
      d.SQ4BitGemmPerGemmWorkspaceSize = none ∧
      d.SQ4BitGemmPerGemmWorkspaceAlignment = none ∧
      d.SQ4BitGemmM1Kernel_CompFp32 = none ∧
      d.Q4BitBlkDequantBForSgemm_CompFp32 = none ∧
      d.SQ4BitGemmKernel_CompInt8 = none ∧
      d.QuantizeARow_CompInt8 = none :=
  dispatch_default_all_unbound.2 (some (fun _ _ _ _ => 0))
    none none none none none none none

/-- The caller loop consumes exactly the remaining row count whenever the
kernel always makes progress and never overshoots, with every returned count
positive and bounded by the remainder it was called on. -/
theorem callerLoopCounts_spec (step : Nat → Nat)
    (hstep : ∀ m, 0 < m → 0 < step m ∧ step m ≤ m) :
    ∀ fuel m, m ≤ fuel →
      (callerLoopCounts step fuel m).sum = m ∧
        ∀ r ∈ callerLoopCounts step fuel m, 0 < r ∧ r ≤ m := by
  intro fuel
  induction fuel with
  | zero =>
      intro m hm
      have hm0 : m = 0 := Nat.le_zero.mp hm
      subst hm0
      simp [callerLoopCounts]
  | succ n ih =>
      intro m hm
      match m with
      | 0 => simp [callerLoopCounts]
      | k + 1 =>
          obtain ⟨hpos, hle⟩ := hstep (k + 1) (Nat.succ_pos k)
          have hrec := ih (k + 1 - step (k + 1)) (by omega)
          rw [callerLoopCounts]
          refine ⟨?_, ?_⟩
          · rw [List.sum_cons, hrec.1]
            omega
          · intro r hr
            rcases List.mem_cons.mp hr with rfl | hr
            · exact ⟨hpos, hle⟩
            · have := hrec.2 r hr
              omega

/-- Claim C3: when every `SQ4BitGemmKernel_CompInt8` call on a nonempty
remainder processes at least one row and at most the remainder (hence at
most `CountM`), the caller loop that advances by each returned count
terminates, every returned count is positive and at most `CountM`, and the
returned counts sum to exactly `CountM`: no row is skipped or duplicated. -/
theorem int8Kernel_chunking (step : Nat → Nat) (CountM : Nat)
    (hstep : ∀ m, 0 < m → 0 < step m ∧ step m ≤ m) :
    (callerLoopCounts step CountM CountM).sum = CountM ∧
      ∀ r ∈ callerLoopCounts step CountM CountM, 0 < r ∧ r ≤ CountM :=
  callerLoopCounts_spec step hstep CountM CountM le_rfl

/-- Witness for C3 with a kernel that processes two rows at a time and
`CountM = 33`. -/
theorem int8Kernel_chunking_witness :
    (callerLoopCounts (fun m => min 2 m) 33 33).sum = 33 :=
  (int8Kernel_chunking (fun m => min 2 m) 33
    (by intro m hm; show 0 < min 2 m ∧ min 2 m ≤ m; constructor <;> omega)).1

/-- Claim C8: for every input, `SQ4BitGemmPackQuantBData` fully overwrites
the destination range below `SQ4BitGemmPackQuantBDataSize` — every byte
there is the packed byte of the source, independent of the previous
destination contents — and writes no byte at or beyond that size: those
bytes are unchanged. -/
theorem pack_frame (N K BlkLen : Nat) (ct : MLAS_SQNBIT_GEMM_COMPUTE_TYPE)
    (src dest : ByteMem) (i : Nat) :
    (i < SQ4BitGemmPackQuantBDataSize N K BlkLen ct →
      SQ4BitGemmPackQuantBData N K BlkLen ct src dest i =
        packedByteAt N K BlkLen src i) ∧
    (SQ4BitGemmPackQuantBDataSize N K BlkLen ct ≤ i →
      SQ4BitGemmPackQuantBData N K BlkLen ct src dest i = dest i) := by
  constructor
  · intro h
    simp [SQ4BitGemmPackQuantBData, h]
  · intro h
    simp [SQ4BitGemmPackQuantBData, Nat.not_lt.mpr h]

/-- Witness for C8 at `N = 2, K = 40, BlkLen = 32` (packed size 64 bytes):
offset 3 gets the packed source byte, offset 64 keeps the old destination
byte. -/
theorem pack_frame_witness :
    SQ4BitGemmPackQuantBData 2 40 32 MLAS_SQNBIT_GEMM_COMPUTE_TYPE.CompInt8
        (fun j => j) (fun _ => 7) 3 =
      packedByteAt 2 40 32 (fun j => j) 3 ∧
    SQ4BitGemmPackQuantBData 2 40 32 MLAS_SQNBIT_GEMM_COMPUTE_TYPE.CompInt8
        (fun j => j) (fun _ => 7) 64 = 7 :=
  ⟨(pack_frame 2 40 32 MLAS_SQNBIT_GEMM_COMPUTE_TYPE.CompInt8
      (fun j => j) (fun _ => 7) 3).1 (by decide),
   (pack_frame 2 40 32 MLAS_SQNBIT_GEMM_COMPUTE_TYPE.CompInt8
      (fun j => j) (fun _ => 7) 64).2 (by decide)⟩

/-- Every member of a list is at most the fold of `max` over it seeded
with 0. -/
theorem le_foldr_max (l : List ℚ) (x : ℚ) (hx : x ∈ l) : x ≤ l.foldr max 0 := by
  induction l with
  | nil => cases hx
  | cons a t ih =>
      rcases List.mem_cons.mp hx with rfl | hx
      · exact le_max_left _ _
      · exact (ih hx).trans (le_max_right _ _)

/-- The fold of `max` over a list seeded with 0 is nonnegative. -/
theorem foldr_max_nonneg (l : List ℚ) : 0 ≤ l.foldr max 0 := by
  induction l with
  | nil => exact le_refl 0
  | cons a t ih => exact ih.trans (le_max_right _ _)

/-- Claim C7: for every activation row and `BlkLen ≥ 1`,
`QuantizeARow_CompInt8` produces exactly `ceil(CountK / BlkLen)` blocks,
each carrying one scale, every quantized value fits in the signed int8
range, and dequantizing (scale times quantized value) reconstructs every
row element within one quantization step — one block scale — of the
original. -/
theorem quantizeARow_roundtrip (BlkLen CountK : Nat) (A : Nat → ℚ)
    (hB : 1 ≤ BlkLen) :
    (QuantizeARow_CompInt8 BlkLen A CountK).length = MlasDivRoundup CountK BlkLen ∧
      ∀ k, k < CountK →
        |aQuant BlkLen CountK A k| ≤ 127 ∧
          |aBlockScale BlkLen CountK A (k / BlkLen) * (aQuant BlkLen CountK A k : ℚ)
              - A k| ≤ aBlockScale BlkLen CountK A (k / BlkLen) := by
  refine ⟨by simp [QuantizeARow_CompInt8], fun k hk => ?_⟩
  have hM0 : (0 : ℚ) ≤ aBlockMaxAbs BlkLen CountK A (k / BlkLen) :=
    foldr_max_nonneg _
  have hmem : |A k| ≤ aBlockMaxAbs BlkLen CountK A (k / BlkLen) := by
    have hj : k % BlkLen < BlkLen := Nat.mod_lt k (by omega)
    have hk' : k / BlkLen * BlkLen + k % BlkLen = k := by
      rw [Nat.mul_comm]
      exact Nat.div_add_mod k BlkLen
    refine le_foldr_max _ _ ?_
    refine List.mem_map.mpr ⟨k % BlkLen, ?_, by rw [hk']⟩
    refine List.mem_filter.mpr ⟨List.mem_range.mpr hj, ?_⟩
    simpa [hk'] using hk
  rcases eq_or_lt_of_le hM0 with h0 | hpos
  · have hA : A k = 0 := by
      have habs : |A k| = 0 := le_antisymm (by rw [← h0] at hmem; exact hmem) (abs_nonneg _)
      exact abs_eq_zero.mp habs
    have hsz : aBlockScale BlkLen CountK A (k / BlkLen) = 0 := by
      unfold aBlockScale
      rw [← h0]
      norm_num
    have hqz : aQuant BlkLen CountK A k = 0 := by
      unfold aQuant
      rw [hA, hsz]
      norm_num
    rw [hqz, hsz, hA]
    norm_num
  · have hspos : 0 < aBlockScale BlkLen CountK A (k / BlkLen) := by
      unfold aBlockScale
      exact div_pos hpos (by norm_num)
    set s := aBlockScale BlkLen CountK A (k / BlkLen) with hs
    have h127 : 127 * s = aBlockMaxAbs BlkLen CountK A (k / BlkLen) := by
      rw [hs]
      unfold aBlockScale
      ring
    have hxb : |A k / s| ≤ 127 := by
      rw [abs_div, abs_of_pos hspos, div_le_iff₀ hspos]
      rw [h127]
      exact hmem
    have hq : aQuant BlkLen CountK A k = round (A k / s) := by
      unfold aQuant
      rw [← hs]
    have hr : |A k / s - (round (A k / s) : ℚ)| ≤ 1 / 2 := abs_sub_round _
    have hxb' := abs_le.mp hxb
    have hr' := abs_le.mp hr
    constructor
    · rw [hq]
      have hA1 : ((2 * round (A k / s) : ℤ) : ℚ) ≤ 255 := by
        push_cast
        linarith [hxb'.1, hxb'.2, hr'.1, hr'.2]
      have hA2 : (-255 : ℚ) ≤ ((2 * round (A k / s) : ℤ) : ℚ) := by
        push_cast
        linarith [hxb'.1, hxb'.2, hr'.1, hr'.2]
      have hz1 : (2 * round (A k / s) : ℤ) ≤ 255 := by exact_mod_cast hA1
      have hz2 : (-255 : ℤ) ≤ 2 * round (A k / s) := by exact_mod_cast hA2
      rw [abs_le]
      omega
    · rw [hq]
      have hsx : s * (A k / s) = A k := by
        field_simp
      have hsplit : s * (round (A k / s) : ℚ) - A k =
          s * ((round (A k / s) : ℚ) - A k / s) := by
        rw [mul_sub, hsx]
      rw [hsplit, abs_mul, abs_of_pos hspos]
      have habs : |(round (A k / s) : ℚ) - A k / s| ≤ 1 / 2 := by
        rw [abs_sub_comm]
        exact hr
      calc s * |(round (A k / s) : ℚ) - A k / s| ≤ s * (1 / 2) :=
            mul_le_mul_of_nonneg_left habs hspos.le
        _ ≤ s := by linarith

/-- Witness for C7 at `BlkLen = 2`, `CountK = 3`, the constant row 5,
evaluated at row position 1. -/
theorem quantizeARow_roundtrip_witness :
    (QuantizeARow_CompInt8 2 (fun _ => (5 : ℚ)) 3).length = MlasDivRoundup 3 2 ∧
      (|aQuant 2 3 (fun _ => (5 : ℚ)) 1| ≤ 127 ∧
        |aBlockScale 2 3 (fun _ => (5 : ℚ)) (1 / 2) *
            (aQuant 2 3 (fun _ => (5 : ℚ)) 1 : ℚ) - 5| ≤
          aBlockScale 2 3 (fun _ => (5 : ℚ)) (1 / 2)) :=
  ⟨(quantizeARow_roundtrip 2 3 (fun _ => (5 : ℚ)) (by decide)).1,
   (quantizeARow_roundtrip 2 3 (fun _ => (5 : ℚ)) (by decide)).2 1 (by decide)⟩

/-- Summing a function block by block, `B` positions per block, equals
summing it over the flattened range. -/
theorem sum_blocks_eq_sum_range (g : Nat → ℚ) (B n : Nat) :
    ∑ i ∈ Finset.range n, ∑ j ∈ Finset.range B, g (i * B + j) =
      ∑ k ∈ Finset.range (n * B), g k := by
  induction n with
  | zero => simp
  | succ m ih =>
      rw [Finset.sum_range_succ, ih, Nat.succ_mul, Finset.sum_range_add]

/-- Guarding a summand by the index staying below `K` cuts a sum over a
range of at least `K` down to the sum over `K`. -/
theorem sum_range_ite_of_le (g : Nat → ℚ) (K M : Nat) (h : K ≤ M) :
    ∑ k ∈ Finset.range M, (if k < K then g k else 0) =
      ∑ k ∈ Finset.range K, g k := by
  rw [← Finset.sum_subset (Finset.range_subset.mpr h)
    (fun x _ hx => if_neg (fun hlt => hx (Finset.mem_range.mpr hlt)))]
  exact Finset.sum_congr rfl fun x hx => if_pos (Finset.mem_range.mp hx)

/-- Claim C4: for `BlkLen ≥ 1` and
`BlockStrideQuantB = ceil(CountK / BlkLen)`, the single-row CompFp32 kernel
writes exactly `CountN` outputs and each output `n` equals the dot product
of the length-`CountK` row A with column `n` of the dequantized B plus the
bias, where an absent zero point is the neutral value and an absent bias
is 0. -/
theorem m1Kernel_correct (BlkLen : Nat) (A : Nat → ℚ)
    (QuantBData : Nat → Nat → ℤ) (QuantBScale : Nat → Nat → ℚ)
    (QuantBZeroPoint : Option (Nat → Nat → ℤ))
    (CountN CountK BlockStrideQuantB : Nat) (Bias : Option (Nat → ℚ))
    (hB : 1 ≤ BlkLen) (hstride : BlockStrideQuantB = MlasDivRoundup CountK BlkLen) :
    (SQ4BitGemmM1Kernel_CompFp32 BlkLen A QuantBData QuantBScale QuantBZeroPoint
        CountN CountK BlockStrideQuantB Bias).length = CountN ∧
      ∀ n, n < CountN →
        (SQ4BitGemmM1Kernel_CompFp32 BlkLen A QuantBData QuantBScale QuantBZeroPoint
            CountN CountK BlockStrideQuantB Bias).getD n 0 =
          (∑ k ∈ Finset.range CountK,
            A k * dequantB BlkLen QuantBData QuantBScale QuantBZeroPoint n k) +
            (Bias.getD (fun _ => 0)) n := by
  constructor
  · simp [SQ4BitGemmM1Kernel_CompFp32]
  · intro n hn
    have hgetD : (SQ4BitGemmM1Kernel_CompFp32 BlkLen A QuantBData QuantBScale
        QuantBZeroPoint CountN CountK BlockStrideQuantB Bias).getD n 0 =
        (∑ i ∈ Finset.range BlockStrideQuantB, ∑ j ∈ Finset.range BlkLen,
          if i * BlkLen + j < CountK then
            A (i * BlkLen + j) * (QuantBScale n i *
              ((QuantBData n (i * BlkLen + j) : ℚ) -
                ((QuantBZeroPoint.getD (fun _ _ => 8)) n i : ℚ)))
          else 0) + (Bias.getD (fun _ => 0)) n := by
      simp [SQ4BitGemmM1Kernel_CompFp32, List.getD_eq_getElem?_getD,
        List.getElem?_map, List.getElem?_range, hn]
    rw [hgetD]
    congr 1
    have hdiv : ∀ i j : Nat, j < BlkLen → (i * BlkLen + j) / BlkLen = i := by
      intro i j hj
      rw [Nat.mul_comm, Nat.mul_add_div (by omega)]
      simp [Nat.div_eq_of_lt hj]
    have hKle : CountK ≤ BlockStrideQuantB * BlkLen := by
      rw [hstride]
      exact le_divRoundup_mul CountK BlkLen hB
    calc
      ∑ i ∈ Finset.range BlockStrideQuantB, ∑ j ∈ Finset.range BlkLen,
          (if i * BlkLen + j < CountK then
            A (i * BlkLen + j) * (QuantBScale n i *
              ((QuantBData n (i * BlkLen + j) : ℚ) -
                ((QuantBZeroPoint.getD (fun _ _ => 8)) n i : ℚ)))
          else 0)
        = ∑ i ∈ Finset.range BlockStrideQuantB, ∑ j ∈ Finset.range BlkLen,
            (if i * BlkLen + j < CountK then
              A (i * BlkLen + j) *
                dequantB BlkLen QuantBData QuantBScale QuantBZeroPoint n
                  (i * BlkLen + j)
            else 0) := by
          refine Finset.sum_congr rfl fun i _ => Finset.sum_congr rfl fun j hj => ?_
          have hjB : j < BlkLen := Finset.mem_range.mp hj
          simp only [dequantB, hdiv i j hjB]
      _ = ∑ k ∈ Finset.range (BlockStrideQuantB * BlkLen),
            (if k < CountK then
              A k * dequantB BlkLen QuantBData QuantBScale QuantBZeroPoint n k
            else 0) :=
          sum_blocks_eq_sum_range
            (fun k => if k < CountK then
              A k * dequantB BlkLen QuantBData QuantBScale QuantBZeroPoint n k
            else 0) BlkLen BlockStrideQuantB
      _ = ∑ k ∈ Finset.range CountK,
            A k * dequantB BlkLen QuantBData QuantBScale QuantBZeroPoint n k :=
          sum_range_ite_of_le
            (fun k => A k * dequantB BlkLen QuantBData QuantBScale QuantBZeroPoint n k)
            CountK (BlockStrideQuantB * BlkLen) hKle

/-- Witness for C4 at `BlkLen = 2`, `CountK = 3`, `CountN = 1`,
`BlockStrideQuantB = 2`, row A constant 1, data `k`, scales 1, no zero
point, no bias, evaluated at column 0. -/
theorem m1Kernel_correct_witness :
    (SQ4BitGemmM1Kernel_CompFp32 2 (fun _ => (1 : ℚ)) (fun _ k => (k : ℤ))
        (fun _ _ => (1 : ℚ)) none 1 3 2 none).getD 0 0 =
      (∑ k ∈ Finset.range 3,
        (1 : ℚ) * dequantB 2 (fun _ k => (k : ℤ)) (fun _ _ => (1 : ℚ)) none 0 k) +
        ((none : Option (Nat → ℚ)).getD (fun _ => 0)) 0 :=
  (m1Kernel_correct 2 (fun _ => (1 : ℚ)) (fun _ k => (k : ℤ))
    (fun _ _ => (1 : ℚ)) none 1 3 2 none (by decide) (by decide)).2 0 (by decide)

end SQNBitGemm
